import Mathlib

/-!
Verification development for the cinode/golib content-addressed encrypted
blob store.  Bytes are modelled as natural numbers (each byte `< 256`),
byte strings as `List Nat`, and 64-bit machine words as `Nat` reduced
modulo `2^64` at every operation that may overflow.
-/

namespace Cinode

/-! ## 64-bit word arithmetic (Go `uint64` semantics) -/

/-- Reduce a natural number to a 64-bit word. -/
def w64 (n : Nat) : Nat := n % 18446744073709551616

/-- Right rotation of a 64-bit word by `k` bits. -/
def rotr64 (k x : Nat) : Nat := w64 ((x >>> k) ||| (x <<< (64 - k)))

/-- Bitwise complement within 64 bits. -/
def not64 (x : Nat) : Nat := x ^^^ 18446744073709551615

/-- SHA-512 choice function. -/
def ch64 (x y z : Nat) : Nat := (x &&& y) ^^^ (not64 x &&& z)

/-- SHA-512 majority function. -/
def maj64 (x y z : Nat) : Nat := (x &&& y) ^^^ (x &&& z) ^^^ (y &&& z)

/-- SHA-512 big sigma 0. -/
def bSig0 (x : Nat) : Nat := rotr64 28 x ^^^ rotr64 34 x ^^^ rotr64 39 x

/-- SHA-512 big sigma 1. -/
def bSig1 (x : Nat) : Nat := rotr64 14 x ^^^ rotr64 18 x ^^^ rotr64 41 x

/-- SHA-512 small sigma 0. -/
def sSig0 (x : Nat) : Nat := rotr64 1 x ^^^ rotr64 8 x ^^^ (x >>> 7)

/-- SHA-512 small sigma 1. -/
def sSig1 (x : Nat) : Nat := rotr64 19 x ^^^ rotr64 61 x ^^^ (x >>> 6)

/-! ## Byte serialization helpers -/

/-- Big-endian byte serialization of `v` on `k` bytes. -/
def beBytes : Nat → Nat → List Nat
  | 0, _ => []
  | k + 1, v => (v >>> (8 * k)) % 256 :: beBytes k v

/-- Big-endian word deserialization of a byte list. -/
def beWord (bs : List Nat) : Nat := bs.foldl (fun a b => a * 256 + b) 0

/-- Split a list into consecutive chunks of `n + 1` elements each
(the last chunk may be shorter). -/
def chunkList1 (n : Nat) : List Nat → List (List Nat)
  | [] => []
  | x :: rest => ((x :: rest).take (n + 1)) :: chunkList1 n ((x :: rest).drop (n + 1))
termination_by l => l.length
decreasing_by simp [List.length_drop]; omega

/-! ## SHA-512 (FIPS 180-4), the hash used by the pipeline through
Go's `crypto/sha512` package -/

/-- SHA-512 message padding: append `0x80`, zero bytes up to 112 mod 128,
then the 16-byte big-endian bit length. -/
def padMessage (m : List Nat) : List Nat :=
  m ++ 128 :: List.replicate ((128 - (m.length + 17) % 128) % 128) 0 ++
    beBytes 16 (8 * m.length)

/-- Parse one 128-byte block into sixteen big-endian 64-bit words. -/
def wordsOfBlock (block : List Nat) : List Nat := (chunkList1 7 block).map beWord

/-- Next message-schedule word from the schedule built so far. -/
def nextW (w : List Nat) : Nat :=
  w64 (sSig1 (w.getD (w.length - 2) 0) + w.getD (w.length - 7) 0 +
    sSig0 (w.getD (w.length - 15) 0) + w.getD (w.length - 16) 0)

/-- Extend the message schedule by `t` further words. -/
def extendW : List Nat → Nat → List Nat
  | w, 0 => w
  | w, t + 1 => extendW (w ++ [nextW w]) t

/-- The eight working variables of the SHA-512 compression function. -/
structure H8 where
  a : Nat
  b : Nat
  c : Nat
  d : Nat
  e : Nat
  f : Nat
  g : Nat
  h : Nat
deriving Repr, DecidableEq

/-- The eighty SHA-512 round constants. -/
def sha512K : List Nat :=
  [4794697086780616226, 8158064640168781261, 13096744586834688815, 16840607885511220156,
   4131703408338449720, 6480981068601479193, 10538285296894168987, 12329834152419229976,
   15566598209576043074, 1334009975649890238, 2608012711638119052, 6128411473006802146,
   8268148722764581231, 9286055187155687089, 11230858885718282805, 13951009754708518548,
   16472876342353939154, 17275323862435702243, 1135362057144423861, 2597628984639134821,
   3308224258029322869, 5365058923640841347, 6679025012923562964, 8573033837759648693,
   10970295158949994411, 12119686244451234320, 12683024718118986047, 13788192230050041572,
   14330467153632333762, 15395433587784984357, 489312712824947311, 1452737877330783856,
   2861767655752347644, 3322285676063803686, 5560940570517711597, 5996557281743188959,
   7280758554555802590, 8532644243296465576, 9350256976987008742, 10552545826968843579,
   11727347734174303076, 12113106623233404929, 14000437183269869457, 14369950271660146224,
   15101387698204529176, 15463397548674623760, 17586052441742319658, 1182934255886127544,
   1847814050463011016, 2177327727835720531, 2830643537854262169, 3796741975233480872,
   4115178125766777443, 5681478168544905931, 6601373596472566643, 7507060721942968483,
   8399075790359081724, 8693463985226723168, 9568029438360202098, 10144078919501101548,
   10430055236837252648, 11840083180663258601, 13761210420658862357, 14299343276471374635,
   14566680578165727644, 15097957966210449927, 16922976911328602910, 17689382322260857208,
   500013540394364858, 748580250866718886, 1242879168328830382, 1977374033974150939,
   2944078676154940804, 3659926193048069267, 4368137639120453308, 4836135668995329356,
   5532061633213252278, 6448918945643986474, 6902733635092675308, 7801388544844847127]

/-- The SHA-512 initial hash value. -/
def sha512Init : H8 :=
  ⟨7640891576956012808, 13503953896175478587, 4354685564936845355, 11912009170470909681,
   5840696475078001361, 11170449401992604703, 2270897969802886507, 6620516959819538809⟩

/-- One round of the SHA-512 compression function; `kw` pairs the round
constant with the schedule word. -/
def sha512Round (s : H8) (kw : Nat × Nat) : H8 :=
  let t1 := w64 (s.h + bSig1 s.e + ch64 s.e s.f s.g + kw.1 + kw.2)
  let t2 := w64 (bSig0 s.a + maj64 s.a s.b s.c)
  ⟨w64 (t1 + t2), s.a, s.b, s.c, w64 (s.d + t1), s.e, s.f, s.g⟩

/-- Process one 128-byte block. -/
def compressBlock (s : H8) (block : List Nat) : H8 :=
  let w := extendW (wordsOfBlock block) 64
  let r := (sha512K.zip w).foldl sha512Round s
  ⟨w64 (s.a + r.a), w64 (s.b + r.b), w64 (s.c + r.c), w64 (s.d + r.d),
   w64 (s.e + r.e), w64 (s.f + r.f), w64 (s.g + r.g), w64 (s.h + r.h)⟩

/-- SHA-512 digest of a byte sequence, as 64 bytes. -/
def sha512 (m : List Nat) : List Nat :=
  let s := (chunkList1 127 (padMessage m)).foldl compressBlock sha512Init
  beBytes 8 s.a ++ beBytes 8 s.b ++ beBytes 8 s.c ++ beBytes 8 s.d ++
    beBytes 8 s.e ++ beBytes 8 s.f ++ beBytes 8 s.g ++ beBytes 8 s.h

/-! ## Lowercase hex encoding (Go `encoding/hex`) -/

/-- Lowercase hex digit for a value `< 16`. -/
def hexDigitChar (n : Nat) : Char :=
  if n < 10 then Char.ofNat (48 + n) else Char.ofNat (87 + n)

/-- Two lowercase hex digits of one byte. -/
def hexByteChars (b : Nat) : List Char := [hexDigitChar (b / 16), hexDigitChar (b % 16)]

/-- Lowercase hex encoding of a byte sequence. -/
def hexEncodeBytes (bs : List Nat) : String := String.mk ((bs.map hexByteChars).flatten)

/-- Value of a lowercase hex digit character. -/
def hexDigitVal (c : Char) : Option Nat :=
  if 48 ≤ c.toNat ∧ c.toNat ≤ 57 then some (c.toNat - 48)
  else if 97 ≤ c.toNat ∧ c.toNat ≤ 102 then some (c.toNat - 87)
  else none

/-- Decode a lowercase hex character sequence back into bytes; `none` on a
malformed (odd-length or non-hex) input. -/
def hexDecodeChars : List Char → Option (List Nat)
  | [] => some []
  | [_] => none
  | c1 :: c2 :: rest =>
    match hexDigitVal c1, hexDigitVal c2, hexDecodeChars rest with
    | some hi, some lo, some bs => some ((16 * hi + lo) :: bs)
    | _, _, _ => none

/-! ## Cipher factory

The `cipherfactory` package implementation (`Create`, `CreateEncryptor`,
`CreateDecryptor`, `CreateHasher`, `GetMinKeySourceBytes`) is not among the
provided sources — only its test file is — so the factory is modelled from
the spec below. -/

/-- Errors of the cipher factory. -/
inductive CFErr
  | insufficientKeySource
  | invalidKey
deriving Repr, DecidableEq

/-- Modelled from the spec: `GetMinKeySourceBytes` — "Policy constant
guaranteeing a floor of 128 bits of derivation material" (16 bytes). -/
def minKeySourceBytes : Nat := 16

/-- Modelled from the spec: the symmetric key is derived from the key
source ("the factory derives a usable initialization state internally");
the concrete rule is an out-of-scope implementation detail, modelled here
as the first 32 bytes of the SHA-512 digest of the key source (the test
vectors show 32 bytes of key material). -/
def deriveKey (keySource : List Nat) : List Nat := (sha512 keySource).take 32

/-- Modelled from the spec: a deterministic keystream derived from key
bytes and iv; any iv length, including zero, yields a usable stream. -/
def keystreamByte (keyBytes iv : List Nat) (i : Nat) : Nat :=
  keyBytes.getD (i % keyBytes.length) 0 ^^^ iv.getD (i % (iv.length + 1)) 0

/-- Byte-by-byte XOR of a stream with a keystream, starting at position
`i`; models the streaming encryptor/decryptor transformation. -/
def xorStream (kb : Nat → Nat) : Nat → List Nat → List Nat
  | _, [] => []
  | i, b :: rest => (b ^^^ kb i) :: xorStream kb (i + 1) rest

/-- Modelled from the spec: the printable key encoding — "an opaque
printable string beginning with an algorithm/version tag followed by
hex-encoded key material"; the test vectors show the tag `01`. -/
def keyEncode (keyBytes : List Nat) : String :=
  String.mk ('0' :: '1' :: (keyBytes.map hexByteChars).flatten)

/-- Modelled from the spec: `CreateEncryptor(keySource, iv, sink)` —
"Fails with `InsufficientKeySource` if `len(keySource) < MinKeySourceBytes`;
otherwise never fails on `iv` length".  The streaming sink is modelled as a
pure function from the full plaintext stream to the ciphertext stream. -/
def createEncryptorM (keySource iv : List Nat) :
    Except CFErr ((List Nat → List Nat) × String) :=
  if keySource.length < minKeySourceBytes then .error .insufficientKeySource
  else
    let kb := deriveKey keySource
    .ok (xorStream (keystreamByte kb iv) 0, keyEncode kb)

/-- Modelled from the spec: `CreateDecryptor(key, iv, source)` — "Fails
with a parse/format error when `key` is empty, malformed, or carries an
unrecognized algorithm tag"; otherwise a streaming decrypting reader. -/
def createDecryptorM (key : String) (iv : List Nat) :
    Except CFErr (List Nat → List Nat) :=
  match key.data with
  | '0' :: '1' :: rest =>
    match hexDecodeChars rest with
    | some kb =>
      if kb.length = 0 then .error .invalidKey
      else .ok (xorStream (keystreamByte kb iv) 0)
    | none => .error .invalidKey
  | _ => .error .invalidKey

/-! ## Blob storage port and the hash-validated blob pipeline
(`src/blobstore/hashvalidation.go`, `src/blobstore/blobstorage.go`) -/

/-- The cipher factory interface as consumed by the pipeline: the
pipeline only calls `createEncryptor`. -/
structure CipherFactory where
  createEncryptor : List Nat → List Nat → Except CFErr ((List Nat → List Nat) × String)

/-- The spec-modelled factory packaged behind the interface. -/
def cfModel : CipherFactory := ⟨createEncryptorM⟩

/-- A trivial always-succeeding factory whose encryptor is the identity;
used to instantiate universally quantified theorems at concrete inputs. -/
def cfId : CipherFactory := ⟨fun _ _ => .ok (fun pt => pt, "k")⟩

/-- A restartable plaintext producer: each invocation of the reader
generator yields a fresh reader that produces `bytes` and then either a
clean EOF (`readErr = none`) or an I/O error (`readErr = some ()`). -/
structure Producer where
  bytes : List Nat
  readErr : Option Unit
deriving DecidableEq

/-- One full read pass over a fresh reader (the pair returned by
`io.Copy`: the data consumed, and the terminal read error if any). -/
def readFull (p : Producer) : List Nat × Option Unit := (p.bytes, p.readErr)

/-- Behaviour of the blob storage backend for the (up to) four calls the
pipeline makes on it: `NewBlobWriter`, `Write` of the tag byte, `Write` of
the ciphertext, `Finalize`. -/
structure StorageOracle where
  newWriterOk : Bool
  writeTagOk : Bool
  writeDataOk : Bool
  finalizeOk : Bool
deriving DecidableEq

/-- A backend on which every call succeeds. -/
def allOk : StorageOracle := ⟨true, true, true, true⟩

/-- Observable actions performed on the storage port during a run. -/
inductive StorageEvent
  | newWriter (bid : String) (ok : Bool)
  | write (bytes : List Nat)
  | finalize
  | cancel
deriving DecidableEq

/-- Pipeline errors: a cipher-factory error or a storage error. -/
inductive PipeErr
  | cipherErr (e : CFErr)
  | storageErr
deriving Repr, DecidableEq

/-- A staged blob writer accumulating written bytes before `Finalize`. -/
structure StagedWriter where
  buf : List Nat
deriving DecidableEq

/-- Writing to a staged writer appends to its staged buffer. -/
def StagedWriter.putBytes (w : StagedWriter) (bs : List Nat) : StagedWriter :=
  ⟨w.buf ++ bs⟩

/-- Outcome of one pipeline run: the returned `(bid, key, err)` triple,
the trace of storage-port actions, and the blob committed by a successful
`Finalize`, if any. -/
structure RunOut where
  result : Except PipeErr (String × String)
  events : List StorageEvent
  committed : Option (String × List Nat)

/-- Modelled from the spec: the constant `validationMethodHash` is not
defined in the provided sources; the spec defines a single
validation-method tag byte ("hash"), and the test vectors in
`fileblobwriter_test.go` show the leading blob byte `0x01`. -/
def validationMethodHash : Nat := 1

/-- Shallow embedding of `createHashValidatedBlobFromReaderGenerator`
(`src/blobstore/hashvalidation.go`): hash the plaintext into the key
source, derive the encryptor and key with a nil iv, encrypt the re-read
plaintext, hash the ciphertext into the blob id, then write the tag byte
and the ciphertext through a staged writer and finalize, cancelling the
staged writer on any error after it was opened.  As in the source, the
error component of both `io.Copy` calls over the plaintext reader is
discarded. -/
def createHashValidatedBlobFromReaderGenerator (cf : CipherFactory)
    (producer : Producer) (storage : StorageOracle) : RunOut :=
  -- io.Copy(hasher, readerGenerator()) : first pass, read error discarded
  let pass1 := readFull producer
  let keySource := sha512 pass1.1
  match cf.createEncryptor keySource [] with
  | .error e => ⟨.error (.cipherErr e), [], none⟩
  | .ok (enc, key) =>
    -- io.Copy(encryptedWriter, readerGenerator()) : second pass, read error discarded
    let pass2 := readFull producer
    let ciphertext := enc pass2.1
    let bid := hexEncodeBytes (sha512 ciphertext)
    if storage.newWriterOk then
      let wtr : StagedWriter := ⟨[]⟩
      if storage.writeTagOk then
        let wtr := wtr.putBytes [validationMethodHash]
        if storage.writeDataOk then
          let wtr := wtr.putBytes ciphertext
          if storage.finalizeOk then
            ⟨.ok (bid, key),
             [.newWriter bid true, .write [validationMethodHash], .write ciphertext,
              .finalize],
             some (bid, wtr.buf)⟩
          else
            ⟨.error .storageErr,
             [.newWriter bid true, .write [validationMethodHash], .write ciphertext,
              .finalize, .cancel],
             none⟩
        else
          ⟨.error .storageErr,
           [.newWriter bid true, .write [validationMethodHash], .write ciphertext,
            .cancel],
           none⟩
      else
        ⟨.error .storageErr,
         [.newWriter bid true, .write [validationMethodHash], .cancel],
         none⟩
    else
      ⟨.error .storageErr, [.newWriter bid false], none⟩

/-! ## Directory blob writer (`src/unnamed/part_001`) -/

/-- Base-256 little-endian digits of a natural number. -/
def natToBytesLE : Nat → List Nat
  | 0 => []
  | n + 1 => ((n + 1) % 256) :: natToBytesLE ((n + 1) / 256)
decreasing_by exact Nat.div_lt_self (Nat.succ_pos n) (by norm_num)

/-- Modelled from the spec: `serializeInt` is not among the provided
sources; the spec calls for a "length-prefixed integer", modelled as the
base-256 digits of the value prefixed by their count. -/
def serializeInt (n : Nat) : List Nat := (natToBytesLE n).length :: natToBytesLE n

/-- A directory entry.  The concrete `DirEntry` struct is not among the
provided sources; modelled from the spec: "name (unique sort key within
its directory) plus entry metadata (e.g., child capability, entry
kind)". -/
structure DirEntry where
  name : String
  bid : String
  key : String
deriving Repr, DecidableEq

/-- Modelled from the spec: a string field in the "fixed self-delimiting
binary layout" — its length followed by its character bytes. -/
def serializeString (s : String) : List Nat :=
  serializeInt s.length ++ s.data.map Char.toNat

/-- Modelled from the spec: `DirEntry.serialize`, the fixed
self-delimiting layout of one entry. -/
def DirEntry.serialize (e : DirEntry) : List Nat :=
  serializeString e.name ++ serializeString e.bid ++ serializeString e.key

/-- Modelled from the spec: the directory-type tag byte
(`blobTypeSimpleStaticDir`), a constant not among the provided sources. -/
def blobTypeSimpleStaticDir : Nat := 1

/-- The ordering used by `sortByName.Less`: ascending entry name. -/
def byName (a b : DirEntry) : Prop := a.name ≤ b.name

/-- The strict version of `byName`. -/
def byNameLT (a b : DirEntry) : Prop := a.name < b.name

instance : DecidableRel byName := fun a b =>
  inferInstanceAs (Decidable (a.name ≤ b.name))

instance : IsTotal DirEntry byName := ⟨fun a b => le_total a.name b.name⟩

instance : IsTrans DirEntry byName := ⟨fun _ _ _ => le_trans⟩

instance : IsAntisymm DirEntry byNameLT :=
  ⟨fun _ _ h1 h2 => absurd h1 (lt_asymm h2)⟩

/-- Embedding of `sort.Sort(sortByName(d.entries))`: sort the entries ascending by
name. -/
def sortEntries (entries : List DirEntry) : List DirEntry :=
  entries.insertionSort byName

/-- The serialized plaintext built by `DirBlobWriter.finalizeSimple`: the
directory-type tag byte, the entry count, then the sorted entries. -/
def dirPlaintext (entries : List DirEntry) : List Nat :=
  blobTypeSimpleStaticDir :: serializeInt entries.length ++
    ((sortEntries entries).map DirEntry.serialize).flatten

/-- Outcome of `DirBlobWriter.Finalize`: a capability, a propagated
error, or a runtime panic. -/
inductive DirOutcome
  | ok (bid key : String)
  | err (e : PipeErr)
  | panicked (msg : String)
deriving Repr, DecidableEq

/-- Embedding of `DirBlobWriter.finalizeSimple`: serialize the sorted entries and
store the plaintext through the pipeline. -/
def finalizeSimple (cf : CipherFactory) (storage : StorageOracle)
    (entries : List DirEntry) : DirOutcome :=
  match (createHashValidatedBlobFromReaderGenerator cf
      ⟨dirPlaintext entries, none⟩ storage).result with
  | .ok (bid, key) => .ok bid key
  | .error e => .err e

/-- Embedding of `DirBlobWriter.finalizeSplit`: the source body is
`panic("Unimplemented: split dir blob")`. -/
def finalizeSplit : DirOutcome := .panicked "Unimplemented: split dir blob"

/-- Embedding of `DirBlobWriter.Finalize` over the accumulated entry list (`AddEntry`
appends, so the list is in insertion order): the simple path when the
entry count is at most `maxSimpleDirEntries`, the split path otherwise.
The constant `maxSimpleDirEntries` is not among the provided sources (the
spec names it only as a policy threshold), so it is a parameter here. -/
def dirFinalize (maxSimpleDirEntries : Nat) (cf : CipherFactory)
    (storage : StorageOracle) (entries : List DirEntry) : DirOutcome :=
  if entries.length ≤ maxSimpleDirEntries then finalizeSimple cf storage entries
  else finalizeSplit

/-! ## Chunked file writer (`FileBlobWriter`; only its test file
`src/blobstore/fileblobwriter_test.go` is among the provided sources) -/

/-- The fixed block size of the chunked file writer: 16 MiB, confirmed by
the boundary tests `TestSimpleFileBorder` and `TestSplitFiles1`. -/
def blockSize : Nat := 16 * 1024 * 1024

/-- Shape of the stored result of the chunked file writer: either one
non-indexed content blob, or an index over a list of stored blocks. -/
inductive FileStructure
  | single (content : List Nat)
  | indexed (blocks : List (List Nat))
deriving Repr, DecidableEq

/-- Modelled from the spec: the `FileBlobWriter` implementation is not
among the provided sources (only its test file is).  Spec §4.4: content of
at most `BlockSize` bytes is stored directly as a single non-indexed blob;
larger content is partitioned into successive blocks of up to `BlockSize`
bytes in stream order, each stored independently and referenced from an
index record. -/
def fileFinalizeStructure (content : List Nat) : FileStructure :=
  if content.length ≤ blockSize then .single content
  else .indexed (chunkList1 (blockSize - 1) content)

/-! ## Helper lemmas -/

theorem length_beBytes (k v : Nat) : (beBytes k v).length = k := by
  induction k generalizing v with
  | zero => rfl
  | succ k ih => simp [beBytes, ih]

theorem beBytes_lt (k v : Nat) : ∀ b ∈ beBytes k v, b < 256 := by
  induction k generalizing v with
  | zero => simp [beBytes]
  | succ k ih =>
    intro b hb
    simp only [beBytes, List.mem_cons] at hb
    rcases hb with h | h
    · subst h; exact Nat.mod_lt _ (by norm_num)
    · exact ih v b h

theorem length_sha512 (m : List Nat) : (sha512 m).length = 64 := by
  simp [sha512, length_beBytes]

theorem sha512_mem_lt (m : List Nat) : ∀ b ∈ sha512 m, b < 256 := by
  intro b hb
  simp only [sha512, List.mem_append] at hb
  rcases hb with ((((((h | h) | h) | h) | h) | h) | h) | h <;> exact beBytes_lt _ _ b h

/-- The sixteen lowercase hex digit characters. -/
def hexAlphabet : List Char := "0123456789abcdef".data

theorem hexDigitChar_mem (n : Nat) (h : n < 16) : hexDigitChar n ∈ hexAlphabet := by
  interval_cases n <;> decide

theorem hexDigitVal_hexDigitChar (n : Nat) (h : n < 16) :
    hexDigitVal (hexDigitChar n) = some n := by
  interval_cases n <;> decide

theorem length_hexFlatten (bs : List Nat) :
    ((bs.map hexByteChars).flatten).length = 2 * bs.length := by
  induction bs with
  | nil => rfl
  | cons b t ih => simp only [List.map_cons, List.flatten_cons, List.length_append,
      List.length_cons, ih, hexByteChars, List.length_nil]; omega

theorem length_hexEncodeBytes (bs : List Nat) :
    (hexEncodeBytes bs).length = 2 * bs.length := by
  simp only [hexEncodeBytes, String.length, length_hexFlatten]

theorem hexEncodeBytes_chars (bs : List Nat) (hbs : ∀ b ∈ bs, b < 256) :
    ∀ c ∈ (hexEncodeBytes bs).data, c ∈ hexAlphabet := by
  intro c hc
  simp only [hexEncodeBytes] at hc
  induction bs with
  | nil => simp at hc
  | cons b t ih =>
    simp only [List.map_cons, List.flatten_cons, List.mem_append, hexByteChars,
      List.mem_cons, List.not_mem_nil, or_false] at hc
    have hb : b < 256 := hbs b (by simp)
    rcases hc with (h | h) | h
    · subst h; exact hexDigitChar_mem _ (by omega)
    · subst h; exact hexDigitChar_mem _ (Nat.mod_lt _ (by norm_num))
    · exact ih (fun x hx => hbs x (by simp [hx])) h

theorem hexDecode_hexEncode (bs : List Nat) (hbs : ∀ b ∈ bs, b < 256) :
    hexDecodeChars ((bs.map hexByteChars).flatten) = some bs := by
  induction bs with
  | nil => rfl
  | cons b t ih =>
    have hb : b < 256 := hbs b (by simp)
    simp only [List.map_cons, List.flatten_cons, hexByteChars, List.cons_append,
      List.nil_append, List.append_eq, hexDecodeChars]
    rw [hexDigitVal_hexDigitChar _ (by omega), hexDigitVal_hexDigitChar _ (Nat.mod_lt _ (by norm_num)),
      ih (fun x hx => hbs x (by simp [hx]))]
    simp only [Option.some.injEq, List.cons.injEq, and_true]
    omega

theorem xorStream_involutive (kb : Nat → Nat) (i : Nat) (l : List Nat) :
    xorStream kb i (xorStream kb i l) = l := by
  induction l generalizing i with
  | nil => rfl
  | cons b t ih =>
    simp [xorStream, ih, Nat.xor_assoc]

theorem chunkList1_of_ne_nil (n : Nat) (l : List Nat) (h : l ≠ []) :
    chunkList1 n l = l.take (n + 1) :: chunkList1 n (l.drop (n + 1)) := by
  cases l with
  | nil => exact absurd rfl h
  | cons x rest => rw [chunkList1]

theorem chunkList1_of_short (n : Nat) (l : List Nat) (h : l ≠ [])
    (h2 : l.length ≤ n + 1) : chunkList1 n l = [l] := by
  rw [chunkList1_of_ne_nil n l h, List.take_of_length_le h2, List.drop_eq_nil_of_le h2]
  simp [chunkList1]

/-- Parsing the printable key encoding of nonempty in-range key bytes
yields the matching streaming decryptor. -/
theorem createDecryptorM_keyEncode (kb iv : List Nat)
    (hlt : ∀ b ∈ kb, b < 256) (hne : kb.length ≠ 0) :
    createDecryptorM (keyEncode kb) iv = .ok (xorStream (keystreamByte kb iv) 0) := by
  unfold createDecryptorM keyEncode
  simp [hexDecode_hexEncode kb hlt, hne]

theorem sortEntries_perm (l : List DirEntry) : List.Perm (sortEntries l) l :=
  List.perm_insertionSort byName l

theorem sortEntries_sorted (l : List DirEntry) : List.Sorted byName (sortEntries l) :=
  List.sorted_insertionSort byName l

theorem sortEntries_sortedLT (l : List DirEntry) (h : (l.map DirEntry.name).Nodup) :
    List.Sorted byNameLT (sortEntries l) := by
  have hperm := sortEntries_perm l
  have hnd : ((sortEntries l).map DirEntry.name).Nodup :=
    ((hperm.map DirEntry.name).nodup_iff).mpr h
  have hpw : List.Pairwise (fun a b : DirEntry => a.name ≠ b.name) (sortEntries l) :=
    List.pairwise_map.mp hnd
  have hle := sortEntries_sorted l
  exact (hle.and hpw).imp (fun hab => lt_of_le_of_ne hab.1 hab.2)

theorem sortEntries_eq_of_perm (l1 l2 : List DirEntry) (hperm : List.Perm l1 l2)
    (h : (l1.map DirEntry.name).Nodup) : sortEntries l1 = sortEntries l2 := by
  have h2 : (l2.map DirEntry.name).Nodup := ((hperm.map DirEntry.name).nodup_iff).mp h
  exact List.eq_of_perm_of_sorted
    ((sortEntries_perm l1).trans (hperm.trans (sortEntries_perm l2).symm))
    (sortEntries_sortedLT l1 h) (sortEntries_sortedLT l2 h2)

/-- Characterization of a successful pipeline run: the key comes from the
encryptor created over the SHA-512 hash of the plaintext with an empty iv,
the committed blob is the tag byte followed by the ciphertext of the full
plaintext, and the blob id is the hex-encoded SHA-512 digest of the
ciphertext alone. -/
theorem run_ok_characterization (cf : CipherFactory) (P : Producer)
    (storage : StorageOracle) (bid key : String)
    (h : (createHashValidatedBlobFromReaderGenerator cf P storage).result = .ok (bid, key)) :
    ∃ enc : List Nat → List Nat,
      cf.createEncryptor (sha512 P.bytes) [] = .ok (enc, key) ∧
      (createHashValidatedBlobFromReaderGenerator cf P storage).committed =
        some (bid, validationMethodHash :: enc P.bytes) ∧
      bid = hexEncodeBytes (sha512 (enc P.bytes)) := by
  obtain ⟨nw, wt, wd, fz⟩ := storage
  cases hcf : cf.createEncryptor (sha512 P.bytes) [] with
  | error e =>
    simp [createHashValidatedBlobFromReaderGenerator, readFull, hcf] at h
  | ok ek =>
    obtain ⟨enc, k⟩ := ek
    cases nw <;> cases wt <;> cases wd <;> cases fz <;>
      simp [createHashValidatedBlobFromReaderGenerator, readFull, hcf,
        StagedWriter.putBytes] at h ⊢
    obtain ⟨hbid, hkey⟩ := h
    refine ⟨enc, ?_, ?_, ?_⟩ <;> simp [hcf, hbid, hkey]

/-- C1: every successful run of the hash-validated blob pipeline derives
the encryption key from the SHA-512 hash of the plaintext used as key
source with an empty iv, encrypts the full plaintext, commits a blob
consisting of one validation-method tag byte followed by the ciphertext,
and returns a blob id equal to the hex-encoded SHA-512 hash of the
ciphertext alone (everything after the tag byte). -/
theorem pipeline_convergent_encryption_layout (cf : CipherFactory)
    (P : Producer) (storage : StorageOracle) (bid key : String)
    (h : (createHashValidatedBlobFromReaderGenerator cf P storage).result = .ok (bid, key)) :
    ∃ enc : List Nat → List Nat,
      cf.createEncryptor (sha512 P.bytes) [] = .ok (enc, key) ∧
      (createHashValidatedBlobFromReaderGenerator cf P storage).committed =
        some (bid, validationMethodHash :: enc P.bytes) ∧
      bid = hexEncodeBytes (sha512 (enc P.bytes)) :=
  run_ok_characterization cf P storage bid key h

/-- Witness for the pipeline layout theorem at a concrete input. -/
theorem pipeline_convergent_encryption_layout_witness :
    (createHashValidatedBlobFromReaderGenerator cfId ⟨[5, 6], none⟩ allOk).result =
      .ok (hexEncodeBytes (sha512 [5, 6]), "k") ∧
    ∃ enc : List Nat → List Nat,
      cfId.createEncryptor (sha512 [5, 6]) [] = .ok (enc, "k") ∧
      (createHashValidatedBlobFromReaderGenerator cfId ⟨[5, 6], none⟩ allOk).committed =
        some (hexEncodeBytes (sha512 [5, 6]), validationMethodHash :: enc [5, 6]) ∧
      hexEncodeBytes (sha512 [5, 6]) = hexEncodeBytes (sha512 (enc [5, 6])) :=
  ⟨rfl, pipeline_convergent_encryption_layout cfId ⟨[5, 6], none⟩ allOk
    (hexEncodeBytes (sha512 [5, 6])) "k" rfl⟩

/-- C4: the pipeline is a deterministic function of the plaintext bytes —
two successful store operations on the same plaintext, over any two
storage backends, return identical (blob id, key) pairs. -/
theorem pipeline_deterministic (cf : CipherFactory) (P : Producer)
    (s1 s2 : StorageOracle) (r1 r2 : String × String)
    (h1 : (createHashValidatedBlobFromReaderGenerator cf P s1).result = .ok r1)
    (h2 : (createHashValidatedBlobFromReaderGenerator cf P s2).result = .ok r2) :
    r1 = r2 := by
  obtain ⟨b1, k1⟩ := r1
  obtain ⟨b2, k2⟩ := r2
  obtain ⟨e1, hcf1, _, hb1⟩ := run_ok_characterization cf P s1 b1 k1 h1
  obtain ⟨e2, hcf2, _, hb2⟩ := run_ok_characterization cf P s2 b2 k2 h2
  have hpair := hcf1.symm.trans hcf2
  simp only [Except.ok.injEq, Prod.mk.injEq] at hpair
  obtain ⟨he, hk⟩ := hpair
  subst he
  subst hk
  rw [hb1, hb2]

/-- Witness for the determinism theorem at a concrete input. -/
theorem pipeline_deterministic_witness :
    (createHashValidatedBlobFromReaderGenerator cfId ⟨[7], none⟩ allOk).result =
      .ok (hexEncodeBytes (sha512 [7]), "k") ∧
    (hexEncodeBytes (sha512 [7]), "k") = (hexEncodeBytes (sha512 [7]), "k") :=
  ⟨rfl, pipeline_deterministic cfId ⟨[7], none⟩ allOk allOk
    (hexEncodeBytes (sha512 [7]), "k") (hexEncodeBytes (sha512 [7]), "k") rfl rfl⟩

/-- C5: whenever the pipeline returns an error after the staged writer was
opened, Cancel is the last action performed on the storage port and no
blob is committed; when the error occurs before a staged writer was
opened, neither writes, finalize nor cancel touch the storage. -/
theorem pipeline_cancel_on_error (cf : CipherFactory) (P : Producer)
    (storage : StorageOracle) (e : PipeErr)
    (h : (createHashValidatedBlobFromReaderGenerator cf P storage).result = .error e) :
    (createHashValidatedBlobFromReaderGenerator cf P storage).committed = none ∧
    ((∃ bid, StorageEvent.newWriter bid true ∈
        (createHashValidatedBlobFromReaderGenerator cf P storage).events) →
      (createHashValidatedBlobFromReaderGenerator cf P storage).events.getLast? =
        some StorageEvent.cancel) ∧
    ((¬ ∃ bid, StorageEvent.newWriter bid true ∈
        (createHashValidatedBlobFromReaderGenerator cf P storage).events) →
      ∀ ev ∈ (createHashValidatedBlobFromReaderGenerator cf P storage).events,
        (∀ bs, ev ≠ StorageEvent.write bs) ∧ ev ≠ StorageEvent.finalize ∧
          ev ≠ StorageEvent.cancel) := by
  obtain ⟨nw, wt, wd, fz⟩ := storage
  cases hcf : cf.createEncryptor (sha512 P.bytes) [] with
  | error ce =>
    simp [createHashValidatedBlobFromReaderGenerator, readFull, hcf]
  | ok ek =>
    obtain ⟨enc, k⟩ := ek
    cases nw <;> cases wt <;> cases wd <;> cases fz <;>
      simp [createHashValidatedBlobFromReaderGenerator, readFull, hcf] at h ⊢

/-- Witness for the cancel-on-error theorem at a concrete input (the
backend rejects the tag-byte write). -/
theorem pipeline_cancel_on_error_witness :
    (createHashValidatedBlobFromReaderGenerator cfId ⟨[9], none⟩
        ⟨true, false, true, true⟩).result = .error .storageErr ∧
    ((createHashValidatedBlobFromReaderGenerator cfId ⟨[9], none⟩
        ⟨true, false, true, true⟩).committed = none ∧
      ((∃ bid, StorageEvent.newWriter bid true ∈
          (createHashValidatedBlobFromReaderGenerator cfId ⟨[9], none⟩
            ⟨true, false, true, true⟩).events) →
        (createHashValidatedBlobFromReaderGenerator cfId ⟨[9], none⟩
          ⟨true, false, true, true⟩).events.getLast? = some StorageEvent.cancel) ∧
      ((¬ ∃ bid, StorageEvent.newWriter bid true ∈
          (createHashValidatedBlobFromReaderGenerator cfId ⟨[9], none⟩
            ⟨true, false, true, true⟩).events) →
        ∀ ev ∈ (createHashValidatedBlobFromReaderGenerator cfId ⟨[9], none⟩
            ⟨true, false, true, true⟩).events,
          (∀ bs, ev ≠ StorageEvent.write bs) ∧ ev ≠ StorageEvent.finalize ∧
            ev ≠ StorageEvent.cancel)) :=
  ⟨rfl, pipeline_cancel_on_error cfId ⟨[9], none⟩ ⟨true, false, true, true⟩
    .storageErr rfl⟩

/-- C10: on every successful run the returned blob id is the lowercase hex
encoding of the 64-byte SHA-512 digest of the stored ciphertext, hence
exactly 128 lowercase hexadecimal characters. -/
theorem pipeline_bid_is_128_lowercase_hex (cf : CipherFactory) (P : Producer)
    (storage : StorageOracle) (bid key : String)
    (h : (createHashValidatedBlobFromReaderGenerator cf P storage).result = .ok (bid, key)) :
    ∃ ct : List Nat,
      (createHashValidatedBlobFromReaderGenerator cf P storage).committed =
        some (bid, validationMethodHash :: ct) ∧
      bid = hexEncodeBytes (sha512 ct) ∧
      (sha512 ct).length = 64 ∧
      bid.length = 128 ∧
      ∀ c ∈ bid.data, c ∈ hexAlphabet := by
  obtain ⟨enc, _, hcom, hbid⟩ := run_ok_characterization cf P storage bid key h
  refine ⟨enc P.bytes, hcom, hbid, length_sha512 _, ?_, ?_⟩
  · rw [hbid, length_hexEncodeBytes, length_sha512]
  · rw [hbid]
    exact hexEncodeBytes_chars _ (sha512_mem_lt _)

/-- Witness for the blob-id shape theorem at a concrete input. -/
theorem pipeline_bid_is_128_lowercase_hex_witness :
    (createHashValidatedBlobFromReaderGenerator cfId ⟨[3, 4], none⟩ allOk).result =
      .ok (hexEncodeBytes (sha512 [3, 4]), "k") ∧
    ∃ ct : List Nat,
      (createHashValidatedBlobFromReaderGenerator cfId ⟨[3, 4], none⟩ allOk).committed =
        some (hexEncodeBytes (sha512 [3, 4]), validationMethodHash :: ct) ∧
      hexEncodeBytes (sha512 [3, 4]) = hexEncodeBytes (sha512 ct) ∧
      (sha512 ct).length = 64 ∧
      (hexEncodeBytes (sha512 [3, 4])).length = 128 ∧
      ∀ c ∈ (hexEncodeBytes (sha512 [3, 4])).data, c ∈ hexAlphabet :=
  ⟨rfl, pipeline_bid_is_128_lowercase_hex cfId ⟨[3, 4], none⟩ allOk
    (hexEncodeBytes (sha512 [3, 4])) "k" rfl⟩

/-- C3: the pipeline discards the error returned by both `io.Copy` passes
over the plaintext reader — run over a producer whose read fails
immediately, it still reports success, and its entire outcome is
identical to the outcome for a producer that reads the same bytes
cleanly. -/
theorem pipeline_swallows_read_error :
    (createHashValidatedBlobFromReaderGenerator cfModel ⟨[], some ()⟩ allOk).result.isOk
      = true ∧
    createHashValidatedBlobFromReaderGenerator cfModel ⟨[], some ()⟩ allOk =
      createHashValidatedBlobFromReaderGenerator cfModel ⟨[], none⟩ allOk :=
  ⟨rfl, rfl⟩

/-- C2: `DirBlobWriter.Finalize` on an entry list exceeding the
`maxSimpleDirEntries` threshold (three entries against a threshold of two)
reaches `finalizeSplit` and panics instead of partitioning the entries. -/
theorem dirFinalize_panics_above_threshold :
    dirFinalize 2 cfId allOk [⟨"a", "", ""⟩, ⟨"b", "", ""⟩, ⟨"c", "", ""⟩] =
      DirOutcome.panicked "Unimplemented: split dir blob" := by
  simp [dirFinalize, finalizeSplit]

/-- C6: for entry lists within the simple-directory threshold, the
serialized plaintext is the tag byte, the entry count and the entries in
ascending name order; any two insertion orders of the same entry set
(names unique) yield byte-identical plaintext and identical Finalize
outcomes. -/
theorem dir_insertion_order_independent (maxE : Nat) (cf : CipherFactory)
    (storage : StorageOracle) (e1 e2 : List DirEntry)
    (hperm : List.Perm e1 e2) (hnodup : (e1.map DirEntry.name).Nodup)
    (hlen : e1.length ≤ maxE) :
    dirPlaintext e1 = blobTypeSimpleStaticDir :: serializeInt e1.length ++
        ((sortEntries e1).map DirEntry.serialize).flatten ∧
    List.Sorted byName (sortEntries e1) ∧
    dirPlaintext e1 = dirPlaintext e2 ∧
    dirFinalize maxE cf storage e1 = dirFinalize maxE cf storage e2 := by
  have hsort := sortEntries_eq_of_perm e1 e2 hperm hnodup
  have hlen2 : e2.length = e1.length := hperm.length_eq.symm
  have hpt : dirPlaintext e1 = dirPlaintext e2 := by
    simp [dirPlaintext, hsort, hlen2]
  refine ⟨rfl, sortEntries_sorted e1, hpt, ?_⟩
  simp [dirFinalize, hlen2, hlen, finalizeSimple, hpt]

/-- A sample directory entry. -/
def entA : DirEntry := ⟨"a", "ba", "ka"⟩

/-- A second sample directory entry. -/
def entB : DirEntry := ⟨"b", "bb", "kb"⟩

/-- Witness for the directory determinism theorem on two concrete
insertion orders of the same entry set. -/
theorem dir_insertion_order_independent_witness :
    List.Perm [entA, entB] [entB, entA] ∧
    ([entA, entB].map DirEntry.name).Nodup ∧
    [entA, entB].length ≤ 5 ∧
    (dirPlaintext [entA, entB] = blobTypeSimpleStaticDir ::
        serializeInt [entA, entB].length ++
        ((sortEntries [entA, entB]).map DirEntry.serialize).flatten ∧
      List.Sorted byName (sortEntries [entA, entB]) ∧
      dirPlaintext [entA, entB] = dirPlaintext [entB, entA] ∧
      dirFinalize 5 cfId allOk [entA, entB] = dirFinalize 5 cfId allOk [entB, entA]) :=
  ⟨by decide, by decide, by decide,
    dir_insertion_order_independent 5 cfId allOk [entA, entB] [entB, entA]
      (by decide) (by decide) (by decide)⟩

/-- C7: `CreateEncryptor` fails exactly on key sources shorter than
`MinKeySourceBytes` — the only possible error is `InsufficientKeySource`,
a key source of exactly the minimum length always succeeds, and the iv
length (any length, including zero) is never a cause of failure. -/
theorem createEncryptor_fails_iff_short_keysource (ks iv : List Nat) :
    (createEncryptorM ks iv = .error .insufficientKeySource ↔
      ks.length < minKeySourceBytes) ∧
    (∀ e, createEncryptorM ks iv = .error e → e = .insufficientKeySource) ∧
    (ks.length = minKeySourceBytes → ∃ r, createEncryptorM ks iv = .ok r) := by
  refine ⟨?_, ?_, ?_⟩
  · unfold createEncryptorM
    split_ifs with hlt <;> simp [hlt]
  · intro e he
    unfold createEncryptorM at he
    split_ifs at he with hlt
    simp at he
    exact he.symm
  · intro hlen
    unfold createEncryptorM
    split_ifs with hlt
    · omega
    · exact ⟨_, rfl⟩

/-- C8: decrypting with a decryptor created from the key and iv returned
by the matching encryptor reproduces the plaintext exactly, for every
plaintext including the empty one. -/
theorem decrypt_encrypt_roundtrip (ks iv P : List Nat)
    (hks : minKeySourceBytes ≤ ks.length) :
    ∃ (enc : List Nat → List Nat) (key : String) (dec : List Nat → List Nat),
      createEncryptorM ks iv = .ok (enc, key) ∧
      createDecryptorM key iv = .ok dec ∧
      dec (enc P) = P := by
  refine ⟨xorStream (keystreamByte (deriveKey ks) iv) 0, keyEncode (deriveKey ks),
    xorStream (keystreamByte (deriveKey ks) iv) 0, ?_, ?_, xorStream_involutive _ _ _⟩
  · simp [createEncryptorM, Nat.not_lt.mpr hks]
  · have hlt : ∀ b ∈ deriveKey ks, b < 256 :=
      fun b hb => sha512_mem_lt ks b (List.take_subset 32 _ hb)
    have hlen : (deriveKey ks).length = 32 := by
      simp [deriveKey, List.length_take, length_sha512]
    exact createDecryptorM_keyEncode _ _ hlt (by omega)

/-- Witness for the encrypt/decrypt roundtrip theorem at a concrete key
source, empty iv and a concrete plaintext. -/
theorem decrypt_encrypt_roundtrip_witness :
    minKeySourceBytes ≤ (List.replicate 16 0).length ∧
    ∃ (enc : List Nat → List Nat) (key : String) (dec : List Nat → List Nat),
      createEncryptorM (List.replicate 16 0) [] = .ok (enc, key) ∧
      createDecryptorM key [] = .ok dec ∧
      dec (enc [1, 2, 3]) = [1, 2, 3] :=
  ⟨by decide, decrypt_encrypt_roundtrip (List.replicate 16 0) [] [1, 2, 3] (by decide)⟩

/-- C9: for the chunked file writer with its 16 MiB block size, content
of exactly `BlockSize` bytes finalizes to a single non-indexed blob,
while `BlockSize + 1` bytes finalizes to an indexed structure over
exactly two stored blocks. -/
theorem fileblobwriter_blocksize_boundary (c1 c2 : List Nat)
    (h1 : c1.length = blockSize) (h2 : c2.length = blockSize + 1) :
    fileFinalizeStructure c1 = FileStructure.single c1 ∧
    ∃ blocks, fileFinalizeStructure c2 = FileStructure.indexed blocks ∧
      blocks.length = 2 := by
  have hbs : blockSize = 16777216 := rfl
  constructor
  · simp [fileFinalizeStructure, h1]
  · have hne : c2 ≠ [] := by
      intro hc
      rw [hc] at h2
      simp at h2
    refine ⟨chunkList1 (blockSize - 1) c2, ?_, ?_⟩
    · rw [fileFinalizeStructure, if_neg (by omega)]
    · have hB : blockSize - 1 + 1 = blockSize := by omega
      rw [chunkList1_of_ne_nil _ _ hne, hB]
      have hdlen : (c2.drop blockSize).length = 1 := by
        simp [List.length_drop, h2]
      have hdne : c2.drop blockSize ≠ [] := by
        intro hc
        rw [hc] at hdlen
        simp at hdlen
      rw [chunkList1_of_short _ _ hdne (by omega)]
      simp

/-- Witness for the block-size boundary theorem on concrete 16 MiB and
16 MiB + 1 contents. -/
theorem fileblobwriter_blocksize_boundary_witness :
    (List.replicate blockSize 97).length = blockSize ∧
    (List.replicate (blockSize + 1) 97).length = blockSize + 1 ∧
    (fileFinalizeStructure (List.replicate blockSize 97) =
        FileStructure.single (List.replicate blockSize 97) ∧
      ∃ blocks, fileFinalizeStructure (List.replicate (blockSize + 1) 97) =
        FileStructure.indexed blocks ∧ blocks.length = 2) :=
  ⟨by simp, by simp,
    fileblobwriter_blocksize_boundary (List.replicate blockSize 97)
      (List.replicate (blockSize + 1) 97) (by simp) (by simp)⟩

end Cinode
